import Mathlib

/-
  Verification development for the RayTracer repository.

  Shallow embedding of the core headers (math.hpp, color.hpp, ray.hpp,
  light.hpp, surface.hpp, transform.hpp, objects.hpp, raytracer.hpp).
  The C++ scalar type real_t (float) is idealized as the real numbers;
  cmath::sqrt becomes Real.sqrt, std::cos and std::sin become Real.cos
  and Real.sin.  Fallible operations (optional intersection results)
  become Option.  The 4x4 and 3x3 matrices stored in flat C arrays
  m[16], inv[16], inv_t[9] are embedded as structures with one named
  field per array slot (mI for m[I], invI for inv[I], itI for inv_t[I]),
  and every loop over matrix entries is unrolled accordingly, so each
  Lean field definition can be compared index-by-index with the source.
-/

noncomputable section

namespace RT

/-- vec3 from math.hpp: three real components. -/
structure Vec3 where
  x : ℝ
  y : ℝ
  z : ℝ

/-- operator* (scalar times vector) and the scale function from math.hpp. -/
def scale (k : ℝ) (v : Vec3) : Vec3 := ⟨k * v.x, k * v.y, k * v.z⟩

/-- operator- on vec3. -/
def vsub (a b : Vec3) : Vec3 := ⟨a.x - b.x, a.y - b.y, a.z - b.z⟩

/-- operator+ on vec3. -/
def vadd (a b : Vec3) : Vec3 := ⟨a.x + b.x, a.y + b.y, a.z + b.z⟩

/-- dot product from math.hpp. -/
def dot (a b : Vec3) : ℝ := a.x * b.x + a.y * b.y + a.z * b.z

/-- mag from math.hpp: sqrt of the self dot product. -/
def mag (v : Vec3) : ℝ := Real.sqrt (dot v v)

/-- norm from math.hpp: scale by the reciprocal magnitude. -/
def norm (v : Vec3) : Vec3 := scale (1 / mag v) v

/-- cross product from math.hpp. -/
def cross (a b : Vec3) : Vec3 :=
  ⟨a.y * b.z - a.z * b.y, a.z * b.x - a.x * b.z, a.x * b.y - a.y * b.x⟩

/-- cmath::pow with an int exponent: repeated multiplication while the
    exponent is still positive, so nonpositive exponents give 1. -/
def cpow (base : ℝ) (iexp : ℤ) : ℝ := base ^ iexp.toNat

/-- color from color.hpp. -/
structure Color where
  r : ℝ
  g : ℝ
  b : ℝ

/-- color::white. -/
def Color.white : Color := ⟨1, 1, 1⟩

/-- color::grey. -/
def Color.grey : Color := ⟨0.5, 0.5, 0.5⟩

/-- color::black (value initialization: all channels zero). -/
def Color.black : Color := ⟨0, 0, 0⟩

/-- color::background, defined to be black. -/
def Color.background : Color := Color.black

/-- color::default_color, defined to be black. -/
def Color.default_color : Color := Color.black

/-- scale on colors from color.hpp. -/
def Color.scale (k : ℝ) (c : Color) : Color := ⟨k * c.r, k * c.g, k * c.b⟩

/-- operator+ on colors. -/
def cadd (a b : Color) : Color := ⟨a.r + b.r, a.g + b.g, a.b + b.b⟩

/-- operator* on colors (componentwise product). -/
def cmul (a b : Color) : Color := ⟨a.r * b.r, a.g * b.g, a.b * b.b⟩

/-- ray from ray.hpp: start point and direction. -/
structure Ray where
  start : Vec3
  dir : Vec3

/-- camera from ray.hpp, as the four stored fields. -/
structure Camera where
  pos : Vec3
  forward : Vec3
  right : Vec3
  up : Vec3

/-- The camera constructor from ray.hpp: basis derived from pos and look_at,
    right and up scaled by the fixed constant 1.5. -/
def Camera.make (pos look_at : Vec3) : Camera :=
  let forward := norm (vsub look_at pos)
  let right := scale 1.5 (norm (cross forward ⟨0, -1, 0⟩))
  ⟨pos, forward, right, scale 1.5 (norm (cross forward right))⟩

/-- light from light.hpp. -/
structure Light where
  pos : Vec3
  col : Color

/-- surface from surface.hpp: per point diffuse and specular colors, a
    per point reflectivity, and an integer roughness exponent. -/
structure Surface where
  diffuse : Vec3 → Color
  specular : Vec3 → Color
  reflect : Vec3 → ℝ
  roughness : ℤ

/-- surfaces::shiny from surface.hpp. -/
def shiny : Surface :=
  ⟨fun _ => Color.white, fun _ => Color.grey, fun _ => 0.7, 100⟩

/-- transform from transform.hpp: forward matrix m[16], inverse inv[16]
    and 3x3 inverse transpose inv_t[9], flattened row major; field mI is
    slot m[I], invI is inv[I], itI is inv_t[I]. -/
structure Transform where
  m0 : ℝ
  m1 : ℝ
  m2 : ℝ
  m3 : ℝ
  m4 : ℝ
  m5 : ℝ
  m6 : ℝ
  m7 : ℝ
  m8 : ℝ
  m9 : ℝ
  m10 : ℝ
  m11 : ℝ
  m12 : ℝ
  m13 : ℝ
  m14 : ℝ
  m15 : ℝ
  inv0 : ℝ
  inv1 : ℝ
  inv2 : ℝ
  inv3 : ℝ
  inv4 : ℝ
  inv5 : ℝ
  inv6 : ℝ
  inv7 : ℝ
  inv8 : ℝ
  inv9 : ℝ
  inv10 : ℝ
  inv11 : ℝ
  inv12 : ℝ
  inv13 : ℝ
  inv14 : ℝ
  inv15 : ℝ
  it0 : ℝ
  it1 : ℝ
  it2 : ℝ
  it3 : ℝ
  it4 : ℝ
  it5 : ℝ
  it6 : ℝ
  it7 : ℝ
  it8 : ℝ

/-- The transform default constructor: identity forward, inverse, and
    3x3 inverse transpose. -/
def identityT : Transform where
  m0 := 1
  m1 := 0
  m2 := 0
  m3 := 0
  m4 := 0
  m5 := 1
  m6 := 0
  m7 := 0
  m8 := 0
  m9 := 0
  m10 := 1
  m11 := 0
  m12 := 0
  m13 := 0
  m14 := 0
  m15 := 1
  inv0 := 1
  inv1 := 0
  inv2 := 0
  inv3 := 0
  inv4 := 0
  inv5 := 1
  inv6 := 0
  inv7 := 0
  inv8 := 0
  inv9 := 0
  inv10 := 1
  inv11 := 0
  inv12 := 0
  inv13 := 0
  inv14 := 0
  inv15 := 1
  it0 := 1
  it1 := 0
  it2 := 0
  it3 := 0
  it4 := 1
  it5 := 0
  it6 := 0
  it7 := 0
  it8 := 1

/-- transform::point: apply the forward matrix with homogeneous w equal 1. -/
def Transform.point (t : Transform) (p : Vec3) : Vec3 :=
  ⟨t.m0 * p.x + t.m1 * p.y + t.m2 * p.z + t.m3,
   t.m4 * p.x + t.m5 * p.y + t.m6 * p.z + t.m7,
   t.m8 * p.x + t.m9 * p.y + t.m10 * p.z + t.m11⟩

/-- transform::vector: apply the forward matrix with homogeneous w equal 0. -/
def Transform.vector (t : Transform) (v : Vec3) : Vec3 :=
  ⟨t.m0 * v.x + t.m1 * v.y + t.m2 * v.z,
   t.m4 * v.x + t.m5 * v.y + t.m6 * v.z,
   t.m8 * v.x + t.m9 * v.y + t.m10 * v.z⟩

/-- transform::inv_point: apply the stored inverse to a point. -/
def Transform.inv_point (t : Transform) (p : Vec3) : Vec3 :=
  ⟨t.inv0 * p.x + t.inv1 * p.y + t.inv2 * p.z + t.inv3,
   t.inv4 * p.x + t.inv5 * p.y + t.inv6 * p.z + t.inv7,
   t.inv8 * p.x + t.inv9 * p.y + t.inv10 * p.z + t.inv11⟩

/-- transform::inv_vector: apply the stored inverse to a vector. -/
def Transform.inv_vector (t : Transform) (v : Vec3) : Vec3 :=
  ⟨t.inv0 * v.x + t.inv1 * v.y + t.inv2 * v.z,
   t.inv4 * v.x + t.inv5 * v.y + t.inv6 * v.z,
   t.inv8 * v.x + t.inv9 * v.y + t.inv10 * v.z⟩

/-- transform::normal: apply the stored 3x3 inverse transpose, then
    renormalize. -/
def Transform.normal (t : Transform) (n : Vec3) : Vec3 :=
  norm ⟨t.it0 * n.x + t.it1 * n.y + t.it2 * n.z,
        t.it3 * n.x + t.it4 * n.y + t.it5 * n.z,
        t.it6 * n.x + t.it7 * n.y + t.it8 * n.z⟩

/-- transform::translate factory. -/
def Transform.translate (x y z : ℝ) : Transform :=
  { identityT with m3 := x, m7 := y, m11 := z, inv3 := -x, inv7 := -y, inv11 := -z }

/-- transform::scale factory. -/
def Transform.scale (sx sy sz : ℝ) : Transform :=
  { identityT with
      m0 := sx, m5 := sy, m10 := sz,
      inv0 := 1 / sx, inv5 := 1 / sy, inv10 := 1 / sz,
      it0 := 1 / sx, it4 := 1 / sy, it8 := 1 / sz }

/-- transform::rotate_y factory, with c the cosine and s the sine of the
    angle in radians. -/
def Transform.rotate_y (radians : ℝ) : Transform :=
  let c := Real.cos radians
  let s := Real.sin radians
  { identityT with
      m0 := c, m2 := s, m8 := -s, m10 := c,
      inv0 := c, inv2 := -s, inv8 := s, inv10 := c,
      it0 := c, it2 := -s, it6 := s, it8 := c }

/-- compose from transform.hpp, loops unrolled: the forward matrix is
    second.m times first.m, the inverse is first.inv times second.inv,
    and inv_t is filled by the loop
    result.inv_t[row * 3 + col] += first.inv[k * 4 + row] * second.inv[col * 4 + k]
    for k below 3. -/
def compose (first second : Transform) : Transform where
  m0 := second.m0 * first.m0 + second.m1 * first.m4 + second.m2 * first.m8 + second.m3 * first.m12
  m1 := second.m0 * first.m1 + second.m1 * first.m5 + second.m2 * first.m9 + second.m3 * first.m13
  m2 := second.m0 * first.m2 + second.m1 * first.m6 + second.m2 * first.m10 + second.m3 * first.m14
  m3 := second.m0 * first.m3 + second.m1 * first.m7 + second.m2 * first.m11 + second.m3 * first.m15
  m4 := second.m4 * first.m0 + second.m5 * first.m4 + second.m6 * first.m8 + second.m7 * first.m12
  m5 := second.m4 * first.m1 + second.m5 * first.m5 + second.m6 * first.m9 + second.m7 * first.m13
  m6 := second.m4 * first.m2 + second.m5 * first.m6 + second.m6 * first.m10 + second.m7 * first.m14
  m7 := second.m4 * first.m3 + second.m5 * first.m7 + second.m6 * first.m11 + second.m7 * first.m15
  m8 := second.m8 * first.m0 + second.m9 * first.m4 + second.m10 * first.m8 + second.m11 * first.m12
  m9 := second.m8 * first.m1 + second.m9 * first.m5 + second.m10 * first.m9 + second.m11 * first.m13
  m10 := second.m8 * first.m2 + second.m9 * first.m6 + second.m10 * first.m10 + second.m11 * first.m14
  m11 := second.m8 * first.m3 + second.m9 * first.m7 + second.m10 * first.m11 + second.m11 * first.m15
  m12 := second.m12 * first.m0 + second.m13 * first.m4 + second.m14 * first.m8 + second.m15 * first.m12
  m13 := second.m12 * first.m1 + second.m13 * first.m5 + second.m14 * first.m9 + second.m15 * first.m13
  m14 := second.m12 * first.m2 + second.m13 * first.m6 + second.m14 * first.m10 + second.m15 * first.m14
  m15 := second.m12 * first.m3 + second.m13 * first.m7 + second.m14 * first.m11 + second.m15 * first.m15
  inv0 := first.inv0 * second.inv0 + first.inv1 * second.inv4 + first.inv2 * second.inv8 + first.inv3 * second.inv12
  inv1 := first.inv0 * second.inv1 + first.inv1 * second.inv5 + first.inv2 * second.inv9 + first.inv3 * second.inv13
  inv2 := first.inv0 * second.inv2 + first.inv1 * second.inv6 + first.inv2 * second.inv10 + first.inv3 * second.inv14
  inv3 := first.inv0 * second.inv3 + first.inv1 * second.inv7 + first.inv2 * second.inv11 + first.inv3 * second.inv15
  inv4 := first.inv4 * second.inv0 + first.inv5 * second.inv4 + first.inv6 * second.inv8 + first.inv7 * second.inv12
  inv5 := first.inv4 * second.inv1 + first.inv5 * second.inv5 + first.inv6 * second.inv9 + first.inv7 * second.inv13
  inv6 := first.inv4 * second.inv2 + first.inv5 * second.inv6 + first.inv6 * second.inv10 + first.inv7 * second.inv14
  inv7 := first.inv4 * second.inv3 + first.inv5 * second.inv7 + first.inv6 * second.inv11 + first.inv7 * second.inv15
  inv8 := first.inv8 * second.inv0 + first.inv9 * second.inv4 + first.inv10 * second.inv8 + first.inv11 * second.inv12
  inv9 := first.inv8 * second.inv1 + first.inv9 * second.inv5 + first.inv10 * second.inv9 + first.inv11 * second.inv13
  inv10 := first.inv8 * second.inv2 + first.inv9 * second.inv6 + first.inv10 * second.inv10 + first.inv11 * second.inv14
  inv11 := first.inv8 * second.inv3 + first.inv9 * second.inv7 + first.inv10 * second.inv11 + first.inv11 * second.inv15
  inv12 := first.inv12 * second.inv0 + first.inv13 * second.inv4 + first.inv14 * second.inv8 + first.inv15 * second.inv12
  inv13 := first.inv12 * second.inv1 + first.inv13 * second.inv5 + first.inv14 * second.inv9 + first.inv15 * second.inv13
  inv14 := first.inv12 * second.inv2 + first.inv13 * second.inv6 + first.inv14 * second.inv10 + first.inv15 * second.inv14
  inv15 := first.inv12 * second.inv3 + first.inv13 * second.inv7 + first.inv14 * second.inv11 + first.inv15 * second.inv15
  it0 := first.inv0 * second.inv0 + first.inv4 * second.inv1 + first.inv8 * second.inv2
  it1 := first.inv0 * second.inv4 + first.inv4 * second.inv5 + first.inv8 * second.inv6
  it2 := first.inv0 * second.inv8 + first.inv4 * second.inv9 + first.inv8 * second.inv10
  it3 := first.inv1 * second.inv0 + first.inv5 * second.inv1 + first.inv9 * second.inv2
  it4 := first.inv1 * second.inv4 + first.inv5 * second.inv5 + first.inv9 * second.inv6
  it5 := first.inv1 * second.inv8 + first.inv5 * second.inv9 + first.inv9 * second.inv10
  it6 := first.inv2 * second.inv0 + first.inv6 * second.inv1 + first.inv10 * second.inv2
  it7 := first.inv2 * second.inv4 + first.inv6 * second.inv5 + first.inv10 * second.inv6
  it8 := first.inv2 * second.inv8 + first.inv6 * second.inv9 + first.inv10 * second.inv10

/-- The property claimed of compose: the stored 3x3 inverse transpose
    block equals the transpose of the 3x3 linear block of the composed
    inverse matrix first.inv times second.inv (which is exactly what the
    composed transform stores in its inv slots), entry by entry:
    inv_t[row * 3 + col] = inv[col * 4 + row]. -/
def invTransposeOK (first second : Transform) : Prop :=
  let r := compose first second
  r.it0 = r.inv0 ∧ r.it1 = r.inv4 ∧ r.it2 = r.inv8 ∧
  r.it3 = r.inv1 ∧ r.it4 = r.inv5 ∧ r.it5 = r.inv9 ∧
  r.it6 = r.inv2 ∧ r.it7 = r.inv6 ∧ r.it8 = r.inv10

/-- Both stored 4x4 matrices have the affine bottom row (0,0,0,1); every
    factory built transform satisfies this and compose preserves it. -/
def Transform.affineRows (t : Transform) : Prop :=
  t.m12 = 0 ∧ t.m13 = 0 ∧ t.m14 = 0 ∧ t.m15 = 1 ∧
  t.inv12 = 0 ∧ t.inv13 = 0 ∧ t.inv14 = 0 ∧ t.inv15 = 1

/-- The grammar of transforms the factories can build: translate, scale,
    rotate_y, and compose of two built transforms. -/
inductive TExpr where
  | tr (x y z : ℝ)
  | sc (sx sy sz : ℝ)
  | roty (radians : ℝ)
  | comp (a b : TExpr)

/-- Evaluate a factory expression to the transform the source builds. -/
def TExpr.eval : TExpr → Transform
  | .tr x y z => Transform.translate x y z
  | .sc sx sy sz => Transform.scale sx sy sz
  | .roty radians => Transform.rotate_y radians
  | .comp a b => compose a.eval b.eval

/-- The caller side precondition on factory arguments: every scale
    factor is nonzero (zero scale is documented as invalid input). -/
def TExpr.valid : TExpr → Prop
  | .tr _ _ _ => True
  | .sc sx sy sz => sx ≠ 0 ∧ sy ≠ 0 ∧ sz ≠ 0
  | .roty _ => True
  | .comp a b => a.valid ∧ b.valid

/-- The epsilon 1e-6 used by the transformed sphere and plane
    intersection lower bound checks. -/
def epsHit : ℝ := 1 / 1000000

/-- The epsilon 1e-9 used by the transformed plane parallelism check. -/
def epsPar : ℝ := 1 / 1000000000

/-- std::numeric_limits of real_t max: the largest finite float,
    2 to the 128 minus 2 to the 104, used to seed the closest hit scan. -/
def fltMax : ℝ := 2 ^ 128 - 2 ^ 104

/-- sphere from objects.hpp: center, radius, surface, transform and the
    use_transform mode flag. -/
structure Sphere where
  center : Vec3
  radius : ℝ
  surf : Surface
  xform : Transform
  use_transform : Bool

/-- The original sphere constructor: explicit center and radius, identity
    transform, use_transform false. -/
def Sphere.mkDirect (center : Vec3) (radius : ℝ) (surf : Surface) : Sphere :=
  ⟨center, radius, surf, identityT, false⟩

/-- The transform sphere constructor: canonical unit sphere at the origin,
    use_transform true. -/
def Sphere.mkTransformed (surf : Surface) (xform : Transform) : Sphere :=
  ⟨⟨0, 0, 0⟩, 1, surf, xform, true⟩

/-- plane from objects.hpp: normal, offset, surface, transform and the
    use_transform mode flag. -/
structure Plane where
  norm : Vec3
  offset : ℝ
  surf : Surface
  xform : Transform
  use_transform : Bool

/-- The original plane constructor: explicit normal and offset, identity
    transform, use_transform false. -/
def Plane.mkDirect (norm : Vec3) (offset : ℝ) (surf : Surface) : Plane :=
  ⟨norm, offset, surf, identityT, false⟩

/-- The transform plane constructor: canonical XZ plane (normal (0,1,0),
    offset 0), use_transform true. -/
def Plane.mkTransformed (surf : Surface) (xform : Transform) : Plane :=
  ⟨⟨0, 1, 0⟩, 0, surf, xform, true⟩

/-- any_thing from objects.hpp: a closed variant over sphere and plane. -/
inductive AnyThing where
  | sph (s : Sphere)
  | pln (p : Plane)

/-- intersection from objects.hpp: the owning thing (a possibly null
    pointer, nullptr embedded as none), the ray that hit, and the hit
    distance. -/
structure Intersection where
  thing : Option AnyThing
  ray : Ray
  dist : ℝ

/-- The local constant eo in sphere::intersect_original. -/
def sphEo (s : Sphere) (r : Ray) : Vec3 := vsub s.center r.start

/-- The local constant v in sphere::intersect_original. -/
def sphV (s : Sphere) (r : Ray) : ℝ := dot (sphEo s r) r.dir

/-- The local constant disc in sphere::intersect_original. -/
def sphDiscO (s : Sphere) (r : Ray) : ℝ :=
  s.radius * s.radius - (dot (sphEo s r) (sphEo s r) - sphV s r * sphV s r)

/-- sphere::intersect_original: geometric test against the explicit
    center and radius; miss when the center is behind the origin, the
    discriminant is negative, or the entry distance is negative. -/
def Sphere.intersect_original (s : Sphere) (r : Ray) : Option Intersection :=
  if sphV s r < 0 then none
  else if sphDiscO s r < 0 then none
  else if sphV s r - Real.sqrt (sphDiscO s r) < 0 then none
  else some ⟨none, r, sphV s r - Real.sqrt (sphDiscO s r)⟩

/-- The local constant obj_origin of the transformed intersection paths:
    the ray start mapped by the stored inverse. -/
def objOrigin (t : Transform) (r : Ray) : Vec3 := t.inv_point r.start

/-- The local constant scale_factor of the transformed intersection
    paths: the magnitude of the mapped, not yet normalized direction. -/
def scaleFactor (t : Transform) (r : Ray) : ℝ := mag (t.inv_vector r.dir)

/-- The local constant obj_dir of the transformed intersection paths:
    the mapped direction scaled by the reciprocal of scale_factor. -/
def objDir (t : Transform) (r : Ray) : Vec3 :=
  scale (1 / scaleFactor t r) (t.inv_vector r.dir)

/-- The quadratic coefficient a in sphere::intersect_transformed. -/
def sphA (t : Transform) (r : Ray) : ℝ := dot (objDir t r) (objDir t r)

/-- The quadratic coefficient b in sphere::intersect_transformed. -/
def sphB (t : Transform) (r : Ray) : ℝ := 2 * dot (objOrigin t r) (objDir t r)

/-- The quadratic coefficient c in sphere::intersect_transformed. -/
def sphC (t : Transform) (r : Ray) : ℝ := dot (objOrigin t r) (objOrigin t r) - 1

/-- The discriminant in sphere::intersect_transformed. -/
def sphDisc (t : Transform) (r : Ray) : ℝ :=
  sphB t r * sphB t r - 4 * sphA t r * sphC t r

/-- The root t1 in sphere::intersect_transformed. -/
def sphT1 (t : Transform) (r : Ray) : ℝ :=
  (-sphB t r - Real.sqrt (sphDisc t r)) / (2 * sphA t r)

/-- The root t2 in sphere::intersect_transformed. -/
def sphT2 (t : Transform) (r : Ray) : ℝ :=
  (-sphB t r + Real.sqrt (sphDisc t r)) / (2 * sphA t r)

/-- sphere::intersect_transformed: map the ray to object space, record
    the mapped direction magnitude as scale_factor, renormalize, solve
    the unit sphere quadratic, take the first root above the 1e-6
    epsilon (t1 first, else t2, else miss), and divide the chosen root
    by scale_factor for the world distance. -/
def Sphere.intersect_transformed (s : Sphere) (world_ray : Ray) : Option Intersection :=
  if sphDisc s.xform world_ray < 0 then none
  else if epsHit < sphT1 s.xform world_ray then
    some ⟨none, world_ray, sphT1 s.xform world_ray / scaleFactor s.xform world_ray⟩
  else if epsHit < sphT2 s.xform world_ray then
    some ⟨none, world_ray, sphT2 s.xform world_ray / scaleFactor s.xform world_ray⟩
  else none

/-- sphere::intersect: dispatch on use_transform. -/
def Sphere.intersect (s : Sphere) (r : Ray) : Option Intersection :=
  if s.use_transform then s.intersect_transformed r else s.intersect_original r

/-- sphere::get_normal. -/
def Sphere.get_normal (s : Sphere) (pos : Vec3) : Vec3 :=
  if s.use_transform then s.xform.normal (norm (s.xform.inv_point pos))
  else norm (vsub pos s.center)

/-- plane::intersect_original: a positive denominator is a miss, and in
    every other case (including a zero denominator, where the C++ float
    division yields an infinity and this real embedding yields the Lean
    division by zero value) a hit is returned with no lower bound check
    on its distance. -/
def Plane.intersect_original (p : Plane) (r : Ray) : Option Intersection :=
  if 0 < dot p.norm r.dir then none
  else some ⟨none, r, (dot p.norm r.start + p.offset) / (-(dot p.norm r.dir))⟩

/-- The plane parameter t in plane::intersect_transformed. -/
def plnT (t : Transform) (r : Ray) : ℝ := -(objOrigin t r).y / (objDir t r).y

/-- plane::intersect_transformed: map the ray to object space, miss when
    the normalized object direction y is within 1e-9 of zero, otherwise
    intersect the XZ plane, require the parameter above 1e-6, and divide
    by scale_factor for the world distance. -/
def Plane.intersect_transformed (p : Plane) (world_ray : Ray) : Option Intersection :=
  if |(objDir p.xform world_ray).y| < epsPar then none
  else if plnT p.xform world_ray ≤ epsHit then none
  else some ⟨none, world_ray, plnT p.xform world_ray / scaleFactor p.xform world_ray⟩

/-- plane::intersect: dispatch on use_transform. -/
def Plane.intersect (p : Plane) (r : Ray) : Option Intersection :=
  if p.use_transform then p.intersect_transformed r else p.intersect_original r

/-- plane::get_normal. -/
def Plane.get_normal (p : Plane) (_pos : Vec3) : Vec3 :=
  if p.use_transform then p.xform.normal ⟨0, 1, 0⟩
  else p.norm

/-- any_thing::intersect: forward to the active variant, then overwrite
    the thing field of a successful result with this very object. -/
def AnyThing.intersect (t : AnyThing) (r : Ray) : Option Intersection :=
  let result : Option Intersection := match t with
    | .sph s => s.intersect r
    | .pln p => p.intersect r
  result.map (fun i => { i with thing := some t })

/-- any_thing::get_normal. -/
def AnyThing.get_normal (t : AnyThing) (pos : Vec3) : Vec3 :=
  match t with
  | .sph s => s.get_normal pos
  | .pln p => p.get_normal pos

/-- any_thing::get_surface. -/
def AnyThing.get_surface (t : AnyThing) : Surface :=
  match t with
  | .sph s => s.surf
  | .pln p => p.surf

/-- The scene capability set the engine templates require: an ordered
    list of things, an ordered list of lights, and a camera. -/
structure Scene where
  things : List AnyThing
  lights : List Light
  cam : Camera

/-- The body of the closest hit loop in ray_tracer::get_intersections:
    replace the accumulator (closest intersection, closest distance) when
    this thing hits strictly closer. -/
def stepClosest (r : Ray) (acc : Option Intersection × ℝ) (t : AnyThing) :
    Option Intersection × ℝ :=
  match t.intersect r with
  | some inter => if inter.dist < acc.2 then (some inter, inter.dist) else acc
  | none => acc

/-- ray_tracer::get_intersections: linear scan over the things with the
    closest distance seeded by the float maximum. -/
def get_intersections (r : Ray) (ts : List AnyThing) : Option Intersection :=
  (ts.foldl (stepClosest r) (none, fltMax)).1

/-- The list of successful per thing intersections of a ray against a
    scene, in scan order (the hits the loop in get_intersections sees). -/
def hits (r : Ray) (ts : List AnyThing) : List Intersection :=
  ts.filterMap (fun t => t.intersect r)

/-- The closest hit loop restricted to the list of successful hits: the
    same accumulator update as stepClosest, with the per thing misses
    already filtered out. -/
def loopMin : List Intersection → Option Intersection × ℝ → Option Intersection × ℝ
  | [], acc => acc
  | i :: rest, acc => loopMin rest (if i.dist < acc.2 then (some i, i.dist) else acc)

/-- ray_tracer::test_ray: the distance of the closest hit, if any. -/
def test_ray (r : Ray) (sc : Scene) : Option ℝ :=
  (get_intersections r sc.things).map (fun i => i.dist)

/-- The local constant livec in ray_tracer::add_light: the normalized
    direction from the shaded point to the light. -/
def livec (pos : Vec3) (l : Light) : Vec3 := norm (vsub l.pos pos)

/-- The local constant is_in_shadow in ray_tracer::add_light: true when
    the closest hit toward the light is strictly nearer than the light. -/
def isInShadow (pos : Vec3) (sc : Scene) (l : Light) : Bool :=
  match test_ray ⟨pos, livec pos l⟩ sc with
  | some d => decide (d < mag (vsub l.pos pos))
  | none => false

/-- ray_tracer::add_light: shadow test toward the light, then diffuse and
    specular contributions gated by their own independent sign tests. -/
def add_light (thing : AnyThing) (pos normal rd : Vec3) (sc : Scene)
    (col : Color) (l : Light) : Color :=
  if isInShadow pos sc l then col
  else
    cadd
      (cadd col (cmul (thing.get_surface.diffuse pos)
        (if 0 < dot (livec pos l) normal
         then Color.scale (dot (livec pos l) normal) l.col
         else Color.default_color)))
      (cmul (thing.get_surface.specular pos)
        (if 0 < dot (livec pos l) (norm rd)
         then Color.scale (cpow (dot (livec pos l) (norm rd)) thing.get_surface.roughness) l.col
         else Color.default_color))

/-- ray_tracer::get_natural_color: fold add_light over the scene lights,
    starting from the default color. -/
def get_natural_color (thing : AnyThing) (pos norm_ rd : Vec3) (sc : Scene) : Color :=
  sc.lights.foldl (fun col l => add_light thing pos norm_ rd sc col l) Color.default_color

/-- ray_tracer::max_depth. -/
def max_depth : ℕ := 5

/-- The nullptr dereference of intersection::thing_ in ray_tracer::shade,
    totalized with an arbitrary default thing; in the engine flow the
    pointer is always non null (see the any_thing::intersect theorem). -/
def derefThing (o : Option AnyThing) : AnyThing :=
  o.getD (AnyThing.pln (Plane.mkDirect ⟨0, 1, 0⟩ 0 shiny))

/-- The local constant pos in ray_tracer::shade: the hit position along
    the intersecting ray. -/
def shadePos (isect : Intersection) : Vec3 :=
  vadd (scale isect.dist isect.ray.dir) isect.ray.start

/-- The local constant normal in ray_tracer::shade, through the
    dereferenced thing pointer. -/
def shadeNormal (isect : Intersection) : Vec3 :=
  (derefThing isect.thing).get_normal (shadePos isect)

/-- The local constant reflect_dir in ray_tracer::shade: the incoming
    direction mirrored about the normal. -/
def shadeReflectDir (isect : Intersection) : Vec3 :=
  vsub isect.ray.dir
    (scale (2 * (dot (shadeNormal isect) isect.ray.dir)) (shadeNormal isect))

/-- The local constant natural_color in ray_tracer::shade. -/
def natural_color (isect : Intersection) (sc : Scene) : Color :=
  cadd Color.background
    (get_natural_color (derefThing isect.thing) (shadePos isect)
      (shadeNormal isect) (shadeReflectDir isect) sc)

/-- The recursion engine behind ray_tracer::trace_ray and shade: one
    well founded definition whose body inlines shade (with its single
    recursive reflection call, made only while depth is below max_depth).
    The source functions trace_ray, shade and get_reflection_color are
    defined below with their own source shaped bodies and proved equal
    to this engine. -/
def traceRay (r : Ray) (sc : Scene) (depth : ℕ) : Color :=
  match get_intersections r sc.things with
  | none => Color.background
  | some isect =>
    if h : max_depth ≤ depth then cadd (natural_color isect sc) Color.grey
    else cadd (natural_color isect sc)
      (Color.scale ((derefThing isect.thing).get_surface.reflect (shadePos isect))
        (traceRay ⟨shadePos isect, shadeReflectDir isect⟩ sc (depth + 1)))
termination_by max_depth + 1 - depth
decreasing_by simp only [max_depth] at *; omega

/-- ray_tracer::get_reflection_color: the recursive reflection sample at
    depth plus one, scaled by the surface reflectivity. -/
def get_reflection_color (thing : AnyThing) (pos rd : Vec3) (sc : Scene)
    (depth : ℕ) : Color :=
  Color.scale (thing.get_surface.reflect pos) (traceRay ⟨pos, rd⟩ sc (depth + 1))

/-- ray_tracer::shade: natural color plus either the fixed grey (at or
    beyond max_depth) or the recursive reflection color. -/
def shade (isect : Intersection) (sc : Scene) (depth : ℕ) : Color :=
  cadd (natural_color isect sc)
    (if max_depth ≤ depth then Color.grey
     else get_reflection_color (derefThing isect.thing) (shadePos isect)
       (shadeReflectDir isect) sc depth)

/-- ray_tracer::trace_ray: shade the closest hit, else the background. -/
def trace_ray (r : Ray) (sc : Scene) (depth : ℕ) : Color :=
  match get_intersections r sc.things with
  | none => Color.background
  | some isect => shade isect sc depth

/-- The count of reflective bounces (recursive reflection samples) a
    trace performs, defined by the same recursion as the engine. -/
def countBounces (r : Ray) (sc : Scene) (depth : ℕ) : ℕ :=
  match get_intersections r sc.things with
  | none => 0
  | some isect =>
    if h : max_depth ≤ depth then 0
    else 1 + countBounces ⟨shadePos isect, shadeReflectDir isect⟩ sc (depth + 1)
termination_by max_depth + 1 - depth
decreasing_by simp only [max_depth] at *; omega

/-- ray_tracer::get_point: recentered pixel coordinates on the image
    plane, then the normalized camera ray direction. -/
def get_point (width height x y : ℕ) (cam : Camera) : Vec3 :=
  let recenterX := ((x : ℝ) - (width : ℝ) / 2) / 2 / (width : ℝ)
  let recenterY := -(((y : ℝ) - (height : ℝ) / 2)) / 2 / (height : ℝ)
  norm (vadd cam.forward (vadd (scale recenterX cam.right) (scale recenterY cam.up)))

/-- ray_tracer::render: the row major sequence of set_pixel calls the
    nested loops make, each one the traced color of the pixel camera
    ray at depth 0. -/
def render (sc : Scene) (width height : ℕ) : List (ℕ × ℕ × Color) :=
  (List.range height).flatMap (fun y =>
    (List.range width).map (fun x =>
      (x, y, trace_ray ⟨sc.cam.pos, get_point width height x y sc.cam⟩ sc 0)))

/-- The cell coordinates of a set_pixel call from render. -/
def pixelOf (p : ℕ × ℕ × Color) : ℕ × ℕ := (p.1, p.2.1)

/-
  Concrete instances used by witnesses and counterexamples.
-/

/-- A concrete direct mode unit sphere at the origin. -/
def sphW : Sphere := Sphere.mkDirect ⟨0, 0, 0⟩ 1 shiny

/-- A concrete ray from (0,0,5) toward the origin. -/
def rayW : Ray := ⟨⟨0, 0, 5⟩, ⟨0, 0, -1⟩⟩

/-- A concrete transformed mode sphere with the identity transform. -/
def sphT : Sphere := Sphere.mkTransformed shiny identityT

/-- A concrete direct mode XZ plane through the origin. -/
def plnW : Plane := Plane.mkDirect ⟨0, 1, 0⟩ 0 shiny

/-- A concrete transformed mode plane with the identity transform. -/
def plnT0 : Plane := Plane.mkTransformed shiny identityT

/-- A concrete ray starting below the plane plnW and moving away from it. -/
def rayNeg : Ray := ⟨⟨0, -1, 0⟩, ⟨0, -1, 0⟩⟩

/-- A concrete ray parallel to the plane plnW, off the plane. -/
def rayPar : Ray := ⟨⟨0, 1, 0⟩, ⟨1, 0, 0⟩⟩

/-- A concrete direct mode sphere hit by rayNeg at distance 4. -/
def sphFar : Sphere := Sphere.mkDirect ⟨0, -6, 0⟩ 1 shiny

/-- A concrete empty scene. -/
def scEmpty : Scene := ⟨[], [], ⟨⟨0, 0, 0⟩, ⟨0, 0, 1⟩, ⟨1, 0, 0⟩, ⟨0, 1, 0⟩⟩⟩

/-- A concrete intersection record for witnesses. -/
def isectW : Intersection :=
  ⟨some (AnyThing.pln (Plane.mkDirect ⟨0, 1, 0⟩ 0 shiny)), ⟨⟨0, 5, 0⟩, ⟨0, -1, 0⟩⟩, 4⟩

/-- A concrete light above the origin along z. -/
def lightW : Light := ⟨⟨0, 0, 3⟩, ⟨1, 1, 1⟩⟩

/-- A concrete sphere blocking the path from the origin to lightW. -/
def sphBlock : Sphere := Sphere.mkDirect ⟨0, 0, 1⟩ 1 shiny

/-- A concrete one sphere scene in which sphBlock occludes lightW. -/
def scBlock : Scene := ⟨[AnyThing.sph sphBlock], [], ⟨⟨0, 0, 0⟩, ⟨0, 0, 1⟩, ⟨1, 0, 0⟩, ⟨0, 1, 0⟩⟩⟩

theorem sqrt_four : Real.sqrt 4 = 2 := by
  rw [show (4 : ℝ) = 2 ^ 2 by norm_num, Real.sqrt_sq (by norm_num : (0 : ℝ) ≤ 2)]

theorem sqrt_nine : Real.sqrt 9 = 3 := by
  rw [show (9 : ℝ) = 3 ^ 2 by norm_num, Real.sqrt_sq (by norm_num : (0 : ℝ) ≤ 3)]

/-- Claim C1: at first = rotate_y(pi over 2) and second = scale(2,1,1),
    compose stores 1 in the inverse transpose slot inv_t[2] (row 0,
    col 2), while the transpose of the 3x3 block of the composed inverse
    first.inv times second.inv has value inv[8] = 1 over 2 there; so the
    claimed equality of the inverse transpose block with the transpose of
    the composed inverse block fails on this input. -/
theorem C1_compose_invT_mismatch :
    (compose (Transform.rotate_y (Real.pi / 2)) (Transform.scale 2 1 1)).it2 = 1 ∧
    (compose (Transform.rotate_y (Real.pi / 2)) (Transform.scale 2 1 1)).inv8 = 1 / 2 ∧
    ¬ invTransposeOK (Transform.rotate_y (Real.pi / 2)) (Transform.scale 2 1 1) := by
  have hc : Real.cos (Real.pi / 2) = 0 := Real.cos_pi_div_two
  have hs : Real.sin (Real.pi / 2) = 1 := Real.sin_pi_div_two
  have h1 : (compose (Transform.rotate_y (Real.pi / 2)) (Transform.scale 2 1 1)).it2 = 1 := by
    simp [compose, Transform.rotate_y, Transform.scale, identityT, hc, hs]
  have h2 : (compose (Transform.rotate_y (Real.pi / 2)) (Transform.scale 2 1 1)).inv8 = 1 / 2 := by
    simp [compose, Transform.rotate_y, Transform.scale, identityT, hc, hs]
  refine ⟨h1, h2, fun hOK => ?_⟩
  simp only [invTransposeOK] at hOK
  have h3 := hOK.2.2.1
  rw [h1, h2] at h3
  norm_num at h3

theorem sphere_intersect_fields : ∀ (s : Sphere) (r : Ray) (i : Intersection),
    s.intersect r = some i → i.thing = none ∧ i.ray = r := by
  intro s r i h
  unfold Sphere.intersect Sphere.intersect_original Sphere.intersect_transformed at h
  split_ifs at h
  all_goals
    first
      | exact Option.noConfusion h
      | (injection h with h2; subst h2; exact ⟨rfl, rfl⟩)

theorem plane_intersect_fields : ∀ (p : Plane) (r : Ray) (i : Intersection),
    p.intersect r = some i → i.thing = none ∧ i.ray = r := by
  intro p r i h
  unfold Plane.intersect Plane.intersect_original Plane.intersect_transformed at h
  split_ifs at h
  all_goals
    first
      | exact Option.noConfusion h
      | (injection h with h2; subst h2; exact ⟨rfl, rfl⟩)

/-- Claim C9: whenever any_thing::intersect reports a hit, the returned
    intersection carries this very any_thing in its thing field and the
    queried ray in its ray field; the inner sphere and plane intersect
    routines leave the thing field null and the wrapper fills it in. -/
theorem C9_wrapper_fills_thing :
    (∀ (t : AnyThing) (r : Ray) (i : Intersection), t.intersect r = some i →
        i.thing = some t ∧ i.ray = r) ∧
    (∀ (s : Sphere) (r : Ray) (i : Intersection), s.intersect r = some i →
        i.thing = none) ∧
    (∀ (p : Plane) (r : Ray) (i : Intersection), p.intersect r = some i →
        i.thing = none) := by
  refine ⟨?_, fun s r i h => (sphere_intersect_fields s r i h).1,
    fun p r i h => (plane_intersect_fields p r i h).1⟩
  intro t r i h
  cases t with
  | sph s =>
    rcases ho : s.intersect r with _ | j
    · simp [AnyThing.intersect, ho] at h
    · simp only [AnyThing.intersect, ho, Option.map_some', Option.some.injEq] at h
      subst h
      exact ⟨rfl, (sphere_intersect_fields s r j ho).2⟩
  | pln p =>
    rcases ho : p.intersect r with _ | j
    · simp [AnyThing.intersect, ho] at h
    · simp only [AnyThing.intersect, ho, Option.map_some', Option.some.injEq] at h
      subst h
      exact ⟨rfl, (plane_intersect_fields p r j ho).2⟩

theorem sphW_inner : sphW.intersect rayW = some ⟨none, rayW, 4⟩ := by
  have hu : sphW.use_transform = false := rfl
  have hv : sphV sphW rayW = 5 := by
    simp [sphV, sphEo, sphW, rayW, Sphere.mkDirect, vsub, dot]
  have hd : sphDiscO sphW rayW = 1 := by
    simp [sphDiscO, sphEo, sphV, sphW, rayW, Sphere.mkDirect, vsub, dot]
  rw [Sphere.intersect, Sphere.intersect_original, hv, hd, Real.sqrt_one]
  simp [hu]
  norm_num

theorem sphW_hit : (AnyThing.sph sphW).intersect rayW =
    some ⟨some (AnyThing.sph sphW), rayW, 4⟩ := by
  simp [AnyThing.intersect, sphW_inner]

/-- Witness for claim C9 at a concrete sphere and ray. -/
theorem C9_wrapper_fills_thing_witness :
    (Intersection.mk (some (AnyThing.sph sphW)) rayW 4).thing = some (AnyThing.sph sphW) ∧
    (Intersection.mk (some (AnyThing.sph sphW)) rayW 4).ray = rayW :=
  C9_wrapper_fills_thing.1 (AnyThing.sph sphW) rayW _ sphW_hit

theorem trace_ray_eq_traceRay (r : Ray) (sc : Scene) (depth : ℕ) :
    trace_ray r sc depth = traceRay r sc depth := by
  rw [trace_ray]
  unfold traceRay
  cases hI : get_intersections r sc.things with
  | none => rfl
  | some isect =>
    simp only [shade, get_reflection_color]
    by_cases h : max_depth ≤ depth
    · rw [if_pos h, dif_pos h]
    · rw [if_neg h, dif_neg h]

/-- Claim C5: a trace started at depth d performs at most max_depth minus
    d reflective bounces (so at most 5 from depth 0), because shade
    substitutes the fixed grey color for the recursive reflection sample
    once the depth reaches max_depth. -/
theorem C5_reflection_depth_bound :
    (∀ (d : ℕ) (r : Ray) (sc : Scene), countBounces r sc d ≤ max_depth - d) ∧
    (∀ (isect : Intersection) (sc : Scene) (d : ℕ), max_depth ≤ d →
      shade isect sc d = cadd (natural_color isect sc) Color.grey) := by
  constructor
  · have key : ∀ (n d : ℕ), max_depth + 1 - d ≤ n → ∀ (r : Ray) (sc : Scene),
        countBounces r sc d ≤ max_depth - d := by
      intro n
      induction n with
      | zero =>
        intro d hd r sc
        have h5 : max_depth ≤ d := by simp only [max_depth] at *; omega
        unfold countBounces
        split
        · exact Nat.zero_le _
        · rw [dif_pos h5]
          exact Nat.zero_le _
      | succ n ih =>
        intro d hd r sc
        unfold countBounces
        split
        · exact Nat.zero_le _
        · rename_i isect heq
          by_cases h5 : max_depth ≤ d
          · rw [dif_pos h5]
            exact Nat.zero_le _
          · rw [dif_neg h5]
            have hrec := ih (d + 1) (by simp only [max_depth] at *; omega)
              ⟨shadePos isect, shadeReflectDir isect⟩ sc
            simp only [max_depth] at *
            omega
    intro d r sc
    exact key (max_depth + 1) d (by omega) r sc
  · intro isect sc d hle
    simp [shade, hle]

/-- Witness for claim C5: at depth 5 (which equals max_depth) shade
    returns the natural color plus the fixed grey. -/
theorem C5_reflection_depth_bound_witness :
    shade isectW scEmpty 5 = cadd (natural_color isectW scEmpty) Color.grey :=
  C5_reflection_depth_bound.2 isectW scEmpty 5 (by decide)

theorem sphT_sf : scaleFactor identityT rayW = 1 := by
  norm_num [scaleFactor, Transform.inv_vector, identityT, rayW, mag, dot, Real.sqrt_one]

theorem sphT_objDir : objDir identityT rayW = ⟨0, 0, -1⟩ := by
  rw [objDir, sphT_sf]
  norm_num [Transform.inv_vector, identityT, rayW, scale]

theorem sphT_objOrigin : objOrigin identityT rayW = ⟨0, 0, 5⟩ := by
  norm_num [objOrigin, Transform.inv_point, identityT, rayW]

theorem sphT_disc : sphDisc identityT rayW = 4 := by
  rw [sphDisc, sphA, sphB, sphC, sphT_objDir, sphT_objOrigin]
  norm_num [dot]

theorem sphT_t1 : sphT1 identityT rayW = 4 := by
  rw [sphT1, sphT_disc, sqrt_four, sphA, sphB, sphT_objDir, sphT_objOrigin]
  norm_num [dot]

theorem sphT_hit : sphT.intersect rayW = some ⟨none, rayW, 4⟩ := by
  have hu : sphT.use_transform = true := rfl
  have hx : sphT.xform = identityT := rfl
  rw [Sphere.intersect]
  simp only [hu, if_true]
  rw [Sphere.intersect_transformed, hx, sphT_disc, sphT_t1, sphT_sf]
  norm_num [epsHit]

theorem plnW_inner : plnW.intersect rayNeg = some ⟨none, rayNeg, -1⟩ := by
  have hu : plnW.use_transform = false := rfl
  rw [Plane.intersect]
  simp only [hu, Bool.false_eq_true, if_false]
  rw [Plane.intersect_original]
  norm_num [plnW, Plane.mkDirect, rayNeg, dot]

/-- Claim C2 counterexample: the direct mode plane plnW reports a hit at
    distance minus one for the ray rayNeg, so a reported hit distance is
    not always at least a small positive epsilon. -/
theorem C2_counterexample :
    plnW.intersect rayNeg = some ⟨none, rayNeg, -1⟩ ∧ ((-1 : ℝ) < 0) :=
  ⟨plnW_inner, by norm_num⟩

/-- Claim C2 (amended): transformed mode sphere and plane hits with a
    nonzero mapped direction have strictly positive distance, and direct
    mode sphere hits have nonnegative distance (zero is possible); the
    direct mode plane path has no lower bound check at all, so the
    claimed positive lower bound fails only there. -/
theorem C2_hit_distance_amended :
    (∀ (s : Sphere) (r : Ray) (i : Intersection), s.use_transform = false →
        s.intersect r = some i → 0 ≤ i.dist) ∧
    (∀ (s : Sphere) (r : Ray) (i : Intersection), s.use_transform = true →
        0 < scaleFactor s.xform r → s.intersect r = some i → 0 < i.dist) ∧
    (∀ (p : Plane) (r : Ray) (i : Intersection), p.use_transform = true →
        0 < scaleFactor p.xform r → p.intersect r = some i → 0 < i.dist) := by
  refine ⟨?_, ?_, ?_⟩
  · intro s r i hu h
    rw [Sphere.intersect] at h
    simp only [hu, Bool.false_eq_true, if_false] at h
    rw [Sphere.intersect_original] at h
    split_ifs at h with h1 h2 h3
    injection h with h4
    subst h4
    simpa using le_of_not_lt h3
  · intro s r i hu hsf h
    rw [Sphere.intersect] at h
    simp only [hu, if_true] at h
    rw [Sphere.intersect_transformed] at h
    split_ifs at h with h1 h2 h3
    · injection h with h4
      subst h4
      have ht : (0 : ℝ) < sphT1 s.xform r := lt_trans (by norm_num [epsHit]) h2
      exact div_pos ht hsf
    · injection h with h4
      subst h4
      have ht : (0 : ℝ) < sphT2 s.xform r := lt_trans (by norm_num [epsHit]) h3
      exact div_pos ht hsf
  · intro p r i hu hsf h
    rw [Plane.intersect] at h
    simp only [hu, if_true] at h
    rw [Plane.intersect_transformed] at h
    split_ifs at h with h1 h2
    injection h with h4
    subst h4
    have ht : (0 : ℝ) < plnT p.xform r := lt_trans (by norm_num [epsHit]) (lt_of_not_le h2)
    exact div_pos ht hsf

/-- Witness for the amended claim C2: a direct sphere hit at distance 4
    and a transformed sphere hit at distance 4, both with the required
    sign. -/
theorem C2_hit_distance_amended_witness :
    (sphW.intersect rayW = some ⟨none, rayW, 4⟩ ∧
      (0 : ℝ) ≤ (Intersection.mk none rayW 4).dist) ∧
    (0 < scaleFactor sphT.xform rayW ∧ sphT.intersect rayW = some ⟨none, rayW, 4⟩ ∧
      (0 : ℝ) < (Intersection.mk none rayW 4).dist) := by
  have hsf : 0 < scaleFactor sphT.xform rayW := by
    rw [show sphT.xform = identityT from rfl, sphT_sf]
    norm_num
  exact ⟨⟨sphW_inner, C2_hit_distance_amended.1 sphW rayW _ rfl sphW_inner⟩,
    ⟨hsf, sphT_hit, C2_hit_distance_amended.2.1 sphT rayW _ rfl hsf sphT_hit⟩⟩

/-- Claim C3 counterexample: for the direct mode plane plnW and the
    exactly parallel ray rayPar the dot product of normal and direction
    is zero, yet intersect returns a hit (the guard only rejects a
    strictly positive denominator, so the division is reached with a
    zero denominator). -/
theorem C3_counterexample :
    dot plnW.norm rayPar.dir = 0 ∧ (plnW.intersect rayPar).isSome = true := by
  constructor
  · norm_num [plnW, Plane.mkDirect, rayPar, dot]
  · have hu : plnW.use_transform = false := rfl
    rw [Plane.intersect]
    simp only [hu, Bool.false_eq_true, if_false]
    rw [Plane.intersect_original]
    norm_num [plnW, Plane.mkDirect, rayPar, dot]

/-- Claim C3 (amended): a transformed mode plane reports no hit whenever
    the object space mapped direction has a zero y component (in
    particular for every ray exactly parallel to the object space plane),
    while a direct mode plane with a zero denominator does reach the
    division and reports a hit. -/
theorem C3_parallel_amended :
    (∀ (p : Plane) (r : Ray), p.use_transform = true →
        (p.xform.inv_vector r.dir).y = 0 → p.intersect r = none) ∧
    (∀ (p : Plane) (r : Ray), p.use_transform = false →
        dot p.norm r.dir = 0 → (p.intersect r).isSome = true) := by
  constructor
  · intro p r hu hy
    rw [Plane.intersect]
    simp only [hu, if_true]
    rw [Plane.intersect_transformed]
    have hz : (objDir p.xform r).y = 0 := by
      simp [objDir, scale, hy]
    rw [if_pos]
    rw [hz]
    norm_num [epsPar]
  · intro p r hu hd
    rw [Plane.intersect]
    simp only [hu, Bool.false_eq_true, if_false]
    rw [Plane.intersect_original]
    rw [if_neg]
    · simp
    · rw [hd]
      norm_num

/-- Witness for the amended claim C3: the transformed plane plnT0 with
    the identity transform reports no hit for the parallel ray rayPar. -/
theorem C3_parallel_amended_witness :
    (plnT0.xform.inv_vector rayPar.dir).y = 0 ∧ plnT0.intersect rayPar = none := by
  have hy : (plnT0.xform.inv_vector rayPar.dir).y = 0 := by
    norm_num [plnT0, Plane.mkTransformed, Transform.inv_vector, identityT, rayPar]
  exact ⟨hy, C3_parallel_amended.1 plnT0 rayPar rfl hy⟩

/-- Claim C10: in add_light the diffuse and specular gates are
    independent: for an unoccluded light with the diffuse dot product
    nonpositive but the specular dot product positive, the result adds
    only the specular term (the diffuse term multiplies the black
    default color away); and for an occluded light (obstruction closer
    than the light) the accumulator is returned unchanged. -/
theorem C10_add_light_independent :
    (∀ (thing : AnyThing) (pos normal rd : Vec3) (sc : Scene) (col : Color) (l : Light),
        isInShadow pos sc l = false →
        dot (livec pos l) normal ≤ 0 →
        0 < dot (livec pos l) (norm rd) →
        add_light thing pos normal rd sc col l =
          cadd col (cmul (thing.get_surface.specular pos)
            (Color.scale (cpow (dot (livec pos l) (norm rd)) thing.get_surface.roughness)
              l.col))) ∧
    (∀ (thing : AnyThing) (pos normal rd : Vec3) (sc : Scene) (col : Color) (l : Light)
        (d : ℝ),
        test_ray ⟨pos, livec pos l⟩ sc = some d →
        d < mag (vsub l.pos pos) →
        add_light thing pos normal rd sc col l = col) := by
  constructor
  · intro thing pos normal rd sc col l hsh hil hsp
    rw [add_light, if_neg (by simp [hsh])]
    rw [if_neg (not_lt.mpr hil), if_pos hsp]
    cases col
    simp [cadd, cmul, Color.default_color, Color.black]
  · intro thing pos normal rd sc col l d htr hdd
    rw [add_light, if_pos]
    rw [isInShadow, htr]
    simp [hdd]

theorem livec_W : livec ⟨0, 0, 0⟩ lightW = ⟨0, 0, 1⟩ := by
  norm_num [livec, norm, mag, vsub, dot, scale, lightW, sqrt_nine]

theorem sphBlock_inner :
    sphBlock.intersect ⟨⟨0, 0, 0⟩, ⟨0, 0, 1⟩⟩ = some ⟨none, ⟨⟨0, 0, 0⟩, ⟨0, 0, 1⟩⟩, 0⟩ := by
  have hu : sphBlock.use_transform = false := rfl
  have hv : sphV sphBlock ⟨⟨0, 0, 0⟩, ⟨0, 0, 1⟩⟩ = 1 := by
    norm_num [sphV, sphEo, sphBlock, Sphere.mkDirect, vsub, dot]
  have hd : sphDiscO sphBlock ⟨⟨0, 0, 0⟩, ⟨0, 0, 1⟩⟩ = 1 := by
    norm_num [sphDiscO, sphEo, sphV, sphBlock, Sphere.mkDirect, vsub, dot]
  rw [Sphere.intersect, Sphere.intersect_original, hv, hd, Real.sqrt_one]
  simp [hu]

theorem scBlock_test :
    test_ray ⟨⟨0, 0, 0⟩, livec ⟨0, 0, 0⟩ lightW⟩ scBlock = some 0 := by
  rw [livec_W]
  have hstep : (AnyThing.sph sphBlock).intersect ⟨⟨0, 0, 0⟩, ⟨0, 0, 1⟩⟩ =
      some ⟨some (AnyThing.sph sphBlock), ⟨⟨0, 0, 0⟩, ⟨0, 0, 1⟩⟩, 0⟩ := by
    simp [AnyThing.intersect, sphBlock_inner]
  rw [test_ray]
  have : get_intersections ⟨⟨0, 0, 0⟩, ⟨0, 0, 1⟩⟩ scBlock.things =
      some ⟨some (AnyThing.sph sphBlock), ⟨⟨0, 0, 0⟩, ⟨0, 0, 1⟩⟩, 0⟩ := by
    rw [get_intersections]
    show (stepClosest _ (none, fltMax) _).1 = _
    rw [stepClosest, hstep]
    norm_num [fltMax]
  rw [this]
  rfl

/-- Witness for claim C10: in the empty scene the light behind the
    surface still contributes its specular term, and in the scene with
    the blocking sphere the occluded light leaves the accumulator
    unchanged. -/
theorem C10_add_light_independent_witness :
    (isInShadow ⟨0, 0, 0⟩ scEmpty lightW = false ∧
      dot (livec ⟨0, 0, 0⟩ lightW) ⟨0, 0, -1⟩ ≤ 0 ∧
      0 < dot (livec ⟨0, 0, 0⟩ lightW) (norm ⟨0, 0, 2⟩) ∧
      add_light (AnyThing.sph sphW) ⟨0, 0, 0⟩ ⟨0, 0, -1⟩ ⟨0, 0, 2⟩ scEmpty Color.black lightW =
        cadd Color.black (cmul ((AnyThing.sph sphW).get_surface.specular ⟨0, 0, 0⟩)
          (Color.scale
            (cpow (dot (livec ⟨0, 0, 0⟩ lightW) (norm ⟨0, 0, 2⟩))
              (AnyThing.sph sphW).get_surface.roughness)
            lightW.col))) ∧
    (test_ray ⟨⟨0, 0, 0⟩, livec ⟨0, 0, 0⟩ lightW⟩ scBlock = some 0 ∧
      (0 : ℝ) < mag (vsub lightW.pos ⟨0, 0, 0⟩) ∧
      add_light (AnyThing.sph sphW) ⟨0, 0, 0⟩ ⟨0, 0, -1⟩ ⟨0, 0, 2⟩ scBlock Color.black lightW =
        Color.black) := by
  have hsh : isInShadow ⟨0, 0, 0⟩ scEmpty lightW = false := rfl
  have hil : dot (livec ⟨0, 0, 0⟩ lightW) ⟨0, 0, -1⟩ ≤ 0 := by
    rw [livec_W]
    norm_num [dot]
  have hsp : 0 < dot (livec ⟨0, 0, 0⟩ lightW) (norm ⟨0, 0, 2⟩) := by
    rw [livec_W]
    norm_num [norm, mag, dot, scale, sqrt_four]
  have hmag : (0 : ℝ) < mag (vsub lightW.pos ⟨0, 0, 0⟩) := by
    norm_num [mag, vsub, dot, lightW, sqrt_nine]
  exact ⟨⟨hsh, hil, hsp,
      C10_add_light_independent.1 (AnyThing.sph sphW) _ _ _ scEmpty Color.black lightW hsh hil hsp⟩,
    ⟨scBlock_test, hmag,
      C10_add_light_independent.2 (AnyThing.sph sphW) _ _ _ scBlock Color.black lightW 0
        scBlock_test (by rw [show mag (vsub lightW.pos ⟨0, 0, 0⟩) = 3 from by
          norm_num [mag, vsub, dot, lightW, sqrt_nine]]; norm_num)⟩⟩

theorem dot_self_nonneg (v : Vec3) : 0 ≤ dot v v := by
  rw [dot]
  nlinarith [mul_self_nonneg v.x, mul_self_nonneg v.y, mul_self_nonneg v.z]

theorem sphA_eq_one (t : Transform) (r : Ray) (h : 0 < scaleFactor t r) :
    sphA t r = 1 := by
  have h0 : 0 ≤ dot (t.inv_vector r.dir) (t.inv_vector r.dir) := dot_self_nonneg _
  have hm : mag (t.inv_vector r.dir) ^ 2 = dot (t.inv_vector r.dir) (t.inv_vector r.dir) :=
    Real.sq_sqrt h0
  have hne : mag (t.inv_vector r.dir) ≠ 0 := by
    rw [scaleFactor] at h
    exact ne_of_gt h
  rw [sphA, objDir, scaleFactor]
  simp only [dot, scale]
  rw [dot] at hm
  field_simp
  nlinarith [hm]

theorem sphT1_le_sphT2 (t : Transform) (r : Ray) (h : 0 < scaleFactor t r) :
    sphT1 t r ≤ sphT2 t r := by
  rw [sphT1, sphT2, sphA_eq_one t r h]
  have hs := Real.sqrt_nonneg (sphDisc t r)
  exact div_le_div_of_nonneg_right (by linarith) (by norm_num : (0 : ℝ) ≤ 2 * 1)

/-- Claim C6: for a transformed mode sphere with a nonzero mapped
    direction, a negative discriminant is a miss; a reported hit carries
    distance t over scale_factor where t is the smallest of the two
    quadratic roots strictly greater than the 1e-6 epsilon; and when
    neither root qualifies the result is a miss. -/
theorem C6_sphere_transformed_roots :
    ∀ (s : Sphere) (r : Ray), s.use_transform = true →
      0 < scaleFactor s.xform r →
      ((sphDisc s.xform r < 0 → s.intersect r = none) ∧
       (∀ i, s.intersect r = some i →
         ∃ t, (t = sphT1 s.xform r ∨ t = sphT2 s.xform r) ∧ epsHit < t ∧
           i = ⟨none, r, t / scaleFactor s.xform r⟩ ∧
           ∀ u, (u = sphT1 s.xform r ∨ u = sphT2 s.xform r) → epsHit < u → t ≤ u) ∧
       (¬ sphDisc s.xform r < 0 → ¬ epsHit < sphT1 s.xform r →
         ¬ epsHit < sphT2 s.xform r → s.intersect r = none)) := by
  intro s r hu hsf
  have he : s.intersect r = Sphere.intersect_transformed s r := by
    rw [Sphere.intersect]
    simp only [hu, if_true]
  refine ⟨?_, ?_, ?_⟩
  · intro hd
    rw [he, Sphere.intersect_transformed, if_pos hd]
  · intro i h
    rw [he, Sphere.intersect_transformed] at h
    split_ifs at h with h1 h2 h3
    · injection h with h4
      refine ⟨sphT1 s.xform r, Or.inl rfl, h2, h4.symm, ?_⟩
      rintro u (rfl | rfl) hu2
      · exact le_refl _
      · exact sphT1_le_sphT2 s.xform r hsf
    · injection h with h4
      refine ⟨sphT2 s.xform r, Or.inr rfl, h3, h4.symm, ?_⟩
      rintro u (rfl | rfl) hu2
      · exact absurd hu2 h2
      · exact le_refl _
  · intro h1 h2 h3
    rw [he, Sphere.intersect_transformed, if_neg h1, if_neg h2, if_neg h3]

/-- Witness for claim C6 at the identity transformed sphere and the ray
    from (0,0,5) toward the origin: the chosen root is 4 over a scale
    factor of 1. -/
theorem C6_sphere_transformed_roots_witness :
    sphT.use_transform = true ∧ 0 < scaleFactor sphT.xform rayW ∧
    ∃ t, (t = sphT1 sphT.xform rayW ∨ t = sphT2 sphT.xform rayW) ∧ epsHit < t ∧
      (Intersection.mk none rayW 4) = ⟨none, rayW, t / scaleFactor sphT.xform rayW⟩ ∧
      ∀ u, (u = sphT1 sphT.xform rayW ∨ u = sphT2 sphT.xform rayW) → epsHit < u → t ≤ u := by
  have hsf : 0 < scaleFactor sphT.xform rayW := by
    rw [show sphT.xform = identityT from rfl, sphT_sf]
    norm_num
  exact ⟨rfl, hsf,
    (C6_sphere_transformed_roots sphT rayW rfl hsf).2.1 _ sphT_hit⟩

theorem foldl_eq_loopMin (r : Ray) :
    ∀ (ts : List AnyThing) (acc : Option Intersection × ℝ),
      ts.foldl (stepClosest r) acc = loopMin (hits r ts) acc := by
  intro ts
  induction ts with
  | nil => intro acc; rfl
  | cons t rest ih =>
    intro acc
    rw [List.foldl_cons]
    rcases ho : t.intersect r with _ | i
    · rw [show stepClosest r acc t = acc from by rw [stepClosest, ho]]
      rw [hits, List.filterMap_cons]
      simp only [ho]
      exact ih acc
    · rw [show stepClosest r acc t =
          (if i.dist < acc.2 then (some i, i.dist) else acc) from by rw [stepClosest, ho]]
      rw [hits, List.filterMap_cons]
      simp only [ho]
      rw [show (loopMin (i :: List.filterMap (fun t => t.intersect r) rest) acc) =
          loopMin (List.filterMap (fun t => t.intersect r) rest)
            (if i.dist < acc.2 then (some i, i.dist) else acc) from rfl]
      exact ih _

theorem loopMin_spec :
    ∀ (l : List Intersection) (o : Option Intersection) (d : ℝ),
      ((∀ j ∈ l, ¬ j.dist < d) → loopMin l (o, d) = (o, d)) ∧
      ((∃ j ∈ l, j.dist < d) →
        ∃ (n : ℕ) (i : Intersection), l[n]? = some i ∧
          loopMin l (o, d) = (some i, i.dist) ∧ i.dist < d ∧
          (∀ j ∈ l, i.dist ≤ j.dist) ∧
          (∀ m, m < n → ∀ j, l[m]? = some j → i.dist < j.dist)) := by
  intro l
  induction l with
  | nil =>
    intro o d
    refine ⟨fun _ => rfl, ?_⟩
    rintro ⟨j, hj, _⟩
    exact absurd hj (List.not_mem_nil j)
  | cons i0 rest ih =>
    intro o d
    constructor
    · intro hall
      rw [loopMin, if_neg (hall i0 (List.mem_cons_self i0 rest))]
      exact (ih o d).1 (fun j hj => hall j (List.mem_cons_of_mem _ hj))
    · intro hex
      rw [loopMin]
      by_cases h0 : i0.dist < d
      · rw [if_pos h0]
        by_cases hrest : ∃ j ∈ rest, j.dist < i0.dist
        · obtain ⟨n, i, hn, heq, hlt, hmin, hfirst⟩ := (ih (some i0) i0.dist).2 hrest
          refine ⟨n + 1, i, by simpa using hn, heq, lt_trans hlt h0, ?_, ?_⟩
          · intro j hj
            rcases List.mem_cons.mp hj with rfl | hj2
            · exact le_of_lt hlt
            · exact hmin j hj2
          · intro m hm j hj
            cases m with
            | zero =>
              simp only [List.getElem?_cons_zero, Option.some.injEq] at hj
              rw [← hj]
              exact hlt
            | succ m2 =>
              exact hfirst m2 (by omega) j (by simpa using hj)
        · push_neg at hrest
          have hloop := (ih (some i0) i0.dist).1 (fun j hj => not_lt.mpr (hrest j hj))
          refine ⟨0, i0, by simp, hloop, h0, ?_, ?_⟩
          · intro j hj
            rcases List.mem_cons.mp hj with rfl | hj2
            · exact le_refl _
            · exact hrest j hj2
          · intro m hm
            omega
      · rw [if_neg h0]
        have hex2 : ∃ j ∈ rest, j.dist < d := by
          obtain ⟨j, hj, hjd⟩ := hex
          rcases List.mem_cons.mp hj with rfl | hj2
          · exact absurd hjd h0
          · exact ⟨j, hj2, hjd⟩
        obtain ⟨n, i, hn, heq, hlt, hmin, hfirst⟩ := (ih o d).2 hex2
        refine ⟨n + 1, i, by simpa using hn, heq, hlt, ?_, ?_⟩
        · intro j hj
          rcases List.mem_cons.mp hj with rfl | hj2
          · exact le_of_lt (lt_of_lt_of_le hlt (not_lt.mp h0))
          · exact hmin j hj2
        · intro m hm j hj
          cases m with
          | zero =>
            simp only [List.getElem?_cons_zero, Option.some.injEq] at hj
            rw [← hj]
            exact lt_of_lt_of_le hlt (not_lt.mp h0)
          | succ m2 =>
            exact hfirst m2 (by omega) j (by simpa using hj)

/-- Claim C4 (amended): provided every reported hit distance lies below
    the float maximum sentinel, get_intersections returns none exactly
    when no geometry reports a hit, and otherwise returns the hit with
    the minimum distance among all reported hits (with no non negativity
    filtering: a negative distance wins over a larger positive one),
    first encountered in scan order winning exact ties. -/
theorem C4_closest_hit_amended :
    ∀ (r : Ray) (ts : List AnyThing),
      (∀ j ∈ hits r ts, j.dist < fltMax) →
      ((hits r ts = [] → get_intersections r ts = none) ∧
       (∀ (i : Intersection), get_intersections r ts = some i →
         ∃ (n : ℕ), (hits r ts)[n]? = some i ∧ (∀ j ∈ hits r ts, i.dist ≤ j.dist) ∧
           ∀ (m : ℕ), m < n → ∀ (j : Intersection), (hits r ts)[m]? = some j →
             i.dist < j.dist) ∧
       (hits r ts ≠ [] → ∃ i, get_intersections r ts = some i)) := by
  intro r ts hall
  have hfold : get_intersections r ts = (loopMin (hits r ts) (none, fltMax)).1 := by
    rw [get_intersections, foldl_eq_loopMin]
  have hex : hits r ts ≠ [] → ∃ j ∈ hits r ts, j.dist < fltMax := by
    intro hne
    rcases hl : hits r ts with _ | ⟨j0, rest⟩
    · exact absurd hl hne
    · have hm : j0 ∈ hits r ts := by
        rw [hl]
        exact List.mem_cons_self j0 rest
      exact ⟨j0, List.mem_cons_self j0 rest, hall j0 hm⟩
  refine ⟨?_, ?_, ?_⟩
  · intro h0
    rw [hfold, h0]
    rfl
  · intro i hi
    by_cases hl : hits r ts = []
    · rw [hfold, hl] at hi
      exact Option.noConfusion hi
    · obtain ⟨n, i2, hn, heq, _, hmin, hfirst⟩ :=
        (loopMin_spec (hits r ts) none fltMax).2 (hex hl)
      rw [hfold, heq] at hi
      injection hi with hi2
      subst hi2
      exact ⟨n, hn, hmin, hfirst⟩
  · intro hne
    obtain ⟨n, i2, hn, heq, _, hmin, hfirst⟩ :=
      (loopMin_spec (hits r ts) none fltMax).2 (hex hne)
    exact ⟨i2, by rw [hfold, heq]⟩

theorem sphFar_inner : sphFar.intersect rayNeg = some ⟨none, rayNeg, 4⟩ := by
  have hu : sphFar.use_transform = false := rfl
  have hv : sphV sphFar rayNeg = 5 := by
    norm_num [sphV, sphEo, sphFar, rayNeg, Sphere.mkDirect, vsub, dot]
  have hd : sphDiscO sphFar rayNeg = 1 := by
    norm_num [sphDiscO, sphEo, sphV, sphFar, rayNeg, Sphere.mkDirect, vsub, dot]
  rw [Sphere.intersect, Sphere.intersect_original, hv, hd, Real.sqrt_one]
  simp [hu]
  norm_num

/-- Claim C4 counterexample: for the ray rayNeg against the scene list
    holding the direct plane plnW (hit at distance minus one) and then
    the sphere sphFar (hit at distance 4), get_intersections returns the
    plane hit at the negative distance, not the minimum non negative
    hit distance 4. -/
theorem C4_counterexample :
    get_intersections rayNeg [AnyThing.pln plnW, AnyThing.sph sphFar] =
      some ⟨some (AnyThing.pln plnW), rayNeg, -1⟩ ∧
    (AnyThing.sph sphFar).intersect rayNeg = some ⟨some (AnyThing.sph sphFar), rayNeg, 4⟩ ∧
    ¬ ((0 : ℝ) ≤ -1) := by
  have h1 : (AnyThing.pln plnW).intersect rayNeg =
      some ⟨some (AnyThing.pln plnW), rayNeg, -1⟩ := by
    simp [AnyThing.intersect, plnW_inner]
  have h2 : (AnyThing.sph sphFar).intersect rayNeg =
      some ⟨some (AnyThing.sph sphFar), rayNeg, 4⟩ := by
    simp [AnyThing.intersect, sphFar_inner]
  refine ⟨?_, h2, by norm_num⟩
  rw [get_intersections]
  simp only [List.foldl_cons, List.foldl_nil]
  rw [show stepClosest rayNeg (none, fltMax) (AnyThing.pln plnW) =
      (some ⟨some (AnyThing.pln plnW), rayNeg, -1⟩, -1) from by
    rw [stepClosest, h1]
    norm_num [fltMax]]
  rw [show stepClosest rayNeg (some ⟨some (AnyThing.pln plnW), rayNeg, -1⟩, -1)
        (AnyThing.sph sphFar) =
      (some ⟨some (AnyThing.pln plnW), rayNeg, -1⟩, -1) from by
    rw [stepClosest, h2]
    norm_num]

theorem hits_single : hits rayW [AnyThing.sph sphW] =
    [⟨some (AnyThing.sph sphW), rayW, 4⟩] := by
  rw [hits, List.filterMap_cons]
  simp [sphW_hit]

/-- Witness for the amended claim C4: a one sphere scene whose single
    hit is below the float maximum yields a closest intersection. -/
theorem C4_closest_hit_amended_witness :
    (∀ j ∈ hits rayW [AnyThing.sph sphW], j.dist < fltMax) ∧
    (∃ i, get_intersections rayW [AnyThing.sph sphW] = some i) := by
  have hall : ∀ j ∈ hits rayW [AnyThing.sph sphW], j.dist < fltMax := by
    rw [hits_single]
    intro j hj
    simp only [List.mem_singleton] at hj
    subst hj
    norm_num [fltMax]
  exact ⟨hall, (C4_closest_hit_amended rayW [AnyThing.sph sphW] hall).2.2
    (by rw [hits_single]; simp)⟩

theorem pairs_length : ∀ (h w : ℕ),
    ((List.range h).flatMap (fun y => (List.range w).map (fun x => (x, y)))).length = h * w := by
  intro h w
  induction h with
  | zero => simp
  | succ h2 ih =>
    rw [List.range_succ h2, List.flatMap_append, List.length_append, ih]
    simp [Nat.succ_mul]

theorem pairs_mem : ∀ (h w x y : ℕ),
    (x, y) ∈ (List.range h).flatMap (fun y2 => (List.range w).map (fun x2 => (x2, y2))) ↔
      (x < w ∧ y < h) := by
  intro h w x y
  simp only [List.mem_flatMap, List.mem_map, List.mem_range]
  constructor
  · rintro ⟨y2, hy2, x2, hx2, heq⟩
    have hx2e : x2 = x := congrArg Prod.fst heq
    have hy2e : y2 = y := congrArg Prod.snd heq
    subst hx2e
    subst hy2e
    exact ⟨hx2, hy2⟩
  · rintro ⟨hx, hy⟩
    exact ⟨y, hy, x, hx, rfl⟩

theorem pairs_nodup : ∀ (h w : ℕ),
    ((List.range h).flatMap (fun y => (List.range w).map (fun x => (x, y)))).Nodup := by
  intro h w
  rw [List.nodup_flatMap]
  constructor
  · intro y _
    exact (List.nodup_range w).map (fun a b hab => by simpa using hab)
  · have hlt := List.pairwise_lt_range h
    refine hlt.imp ?_
    intro y1 y2 hlt12
    rw [Function.onFun, List.disjoint_left]
    rintro ⟨a, b⟩ ha hb
    simp only [List.mem_map, List.mem_range] at ha hb
    obtain ⟨x1, _, he1⟩ := ha
    obtain ⟨x2, _, he2⟩ := hb
    have hb1 : b = y1 := by
      have := congrArg Prod.snd he1
      simpa using this.symm
    have hb2 : b = y2 := by
      have := congrArg Prod.snd he2
      simpa using this.symm
    omega

theorem pairs_get : ∀ (h w x y : ℕ), x < w → y < h →
    ((List.range h).flatMap (fun y2 => (List.range w).map (fun x2 => (x2, y2))))[y * w + x]? =
      some (x, y) := by
  intro h
  induction h with
  | zero =>
    intro w x y _ hy
    exact absurd hy (Nat.not_lt_zero y)
  | succ h2 ih =>
    intro w x y hx hy
    rw [List.range_succ h2, List.flatMap_append]
    by_cases hyh : y < h2
    · have hidx : y * w + x < ((List.range h2).flatMap
          (fun y2 => (List.range w).map (fun x2 => (x2, y2)))).length := by
        rw [pairs_length]
        calc y * w + x < y * w + w := by omega
        _ = (y + 1) * w := by ring
        _ ≤ h2 * w := Nat.mul_le_mul_right w (by omega)
      rw [List.getElem?_append_left hidx]
      exact ih w x y hx hyh
    · have hy2 : y = h2 := by omega
      subst hy2
      have hlen : ((List.range y).flatMap
          (fun y2 => (List.range w).map (fun x2 => (x2, y2)))).length = y * w :=
        pairs_length y w
      rw [List.getElem?_append_right (by omega : ((List.range y).flatMap
          (fun y2 => (List.range w).map (fun x2 => (x2, y2)))).length ≤ y * w + x)]
      rw [hlen]
      simp only [List.flatMap_cons, List.flatMap_nil, List.append_nil]
      rw [show y * w + x - y * w = x from by omega]
      rw [List.getElem?_map]
      simp [List.getElem?_range, hx]

/-- Claim C7: for every scene, render emits one set_pixel call per cell:
    the emitted cell list has no duplicates, contains exactly the cells
    (x, y) with x below width and y below height, has length height
    times width, and is in row major order (the call for cell (x, y) is
    at position y times width plus x). -/
theorem C7_render_row_major :
    ∀ (sc : Scene) (w h : ℕ),
      ((render sc w h).map pixelOf).Nodup ∧
      (∀ (x y : ℕ), (x, y) ∈ (render sc w h).map pixelOf ↔ (x < w ∧ y < h)) ∧
      ((render sc w h).map pixelOf).length = h * w ∧
      (∀ (x y : ℕ), x < w → y < h →
        ((render sc w h).map pixelOf)[y * w + x]? = some (x, y)) := by
  intro sc w h
  have hmap : (render sc w h).map pixelOf =
      (List.range h).flatMap (fun y => (List.range w).map (fun x => (x, y))) := by
    rw [render, List.map_flatMap]
    congr 1
    funext y
    rw [List.map_map]
    congr 1
  rw [hmap]
  exact ⟨pairs_nodup h w, fun x y => pairs_mem h w x y, pairs_length h w,
    fun x y hx hy => pairs_get h w x y hx hy⟩

/-- Witness for claim C7: at width 1 and height 1 the single emitted
    cell sits at row major position 0 and is the cell (0, 0). -/
theorem C7_render_row_major_witness :
    0 < 1 ∧ ((render scEmpty 1 1).map pixelOf)[0 * 1 + 0]? = some (0, 0) :=
  ⟨by decide, (C7_render_row_major scEmpty 1 1).2.2.2 0 0 (by decide) (by decide)⟩

theorem compose_point (f s : Transform) (hf : f.affineRows) (p : Vec3) :
    (compose f s).point p = s.point (f.point p) := by
  obtain ⟨ha, hb, hc, hd, _, _, _, _⟩ := hf
  simp only [compose, Transform.point]
  rw [ha, hb, hc, hd]
  simp only [Vec3.mk.injEq]
  refine ⟨by ring, by ring, by ring⟩

theorem compose_inv_point (f s : Transform) (hs : s.affineRows) (q : Vec3) :
    (compose f s).inv_point q = f.inv_point (s.inv_point q) := by
  obtain ⟨_, _, _, _, ha, hb, hc, hd⟩ := hs
  simp only [compose, Transform.inv_point]
  rw [ha, hb, hc, hd]
  simp only [Vec3.mk.injEq]
  refine ⟨by ring, by ring, by ring⟩

theorem compose_affineRows {f s : Transform} (hf : f.affineRows) (hs : s.affineRows) :
    (compose f s).affineRows := by
  obtain ⟨ha1, ha2, ha3, ha4, ha5, ha6, ha7, ha8⟩ := hf
  obtain ⟨hb1, hb2, hb3, hb4, hb5, hb6, hb7, hb8⟩ := hs
  simp only [Transform.affineRows, compose]
  rw [ha1, ha2, ha3, ha4, ha5, ha6, ha7, ha8, hb1, hb2, hb3, hb4, hb5, hb6, hb7, hb8]
  norm_num

theorem translate_affineRows (x y z : ℝ) : (Transform.translate x y z).affineRows := by
  simp [Transform.affineRows, Transform.translate, identityT]

theorem scale_affineRows (sx sy sz : ℝ) : (Transform.scale sx sy sz).affineRows := by
  simp [Transform.affineRows, Transform.scale, identityT]

theorem rotate_y_affineRows (radians : ℝ) : (Transform.rotate_y radians).affineRows := by
  simp [Transform.affineRows, Transform.rotate_y, identityT]

theorem translate_roundtrip (x y z : ℝ) (p : Vec3) :
    (Transform.translate x y z).inv_point ((Transform.translate x y z).point p) = p := by
  simp only [Transform.translate, identityT, Transform.point, Transform.inv_point]
  cases p
  simp only [Vec3.mk.injEq]
  refine ⟨by ring, by ring, by ring⟩

theorem scale_roundtrip (sx sy sz : ℝ) (hx : sx ≠ 0) (hy : sy ≠ 0) (hz : sz ≠ 0)
    (p : Vec3) :
    (Transform.scale sx sy sz).inv_point ((Transform.scale sx sy sz).point p) = p := by
  simp only [Transform.scale, identityT, Transform.point, Transform.inv_point]
  cases p
  simp only [Vec3.mk.injEq]
  refine ⟨?_, ?_, ?_⟩ <;> field_simp

theorem rotate_y_roundtrip (radians : ℝ) (p : Vec3) :
    (Transform.rotate_y radians).inv_point ((Transform.rotate_y radians).point p) = p := by
  have hsc := Real.sin_sq_add_cos_sq radians
  simp only [Transform.rotate_y, identityT, Transform.point, Transform.inv_point]
  obtain ⟨px, py, pz⟩ := p
  simp only [Vec3.mk.injEq]
  refine ⟨by linear_combination px * hsc, by ring, by linear_combination pz * hsc⟩

theorem eval_affine_roundtrip : ∀ (e : TExpr), e.valid →
    e.eval.affineRows ∧ ∀ (p : Vec3), e.eval.inv_point (e.eval.point p) = p := by
  intro e
  induction e with
  | tr x y z =>
    intro _
    exact ⟨translate_affineRows x y z, translate_roundtrip x y z⟩
  | sc sx sy sz =>
    intro hv
    exact ⟨scale_affineRows sx sy sz, scale_roundtrip sx sy sz hv.1 hv.2.1 hv.2.2⟩
  | roty radians =>
    intro _
    exact ⟨rotate_y_affineRows radians, rotate_y_roundtrip radians⟩
  | comp a b iha ihb =>
    intro hv
    obtain ⟨haf, har⟩ := iha hv.1
    obtain ⟨hbf, hbr⟩ := ihb hv.2
    refine ⟨compose_affineRows haf hbf, ?_⟩
    intro p
    rw [TExpr.eval, compose_point _ _ haf, compose_inv_point _ _ hbf, hbr, har]

/-- Claim C8: for every transform built from translate, scale with
    nonzero factors, rotate_y, or compose of such transforms, applying
    the forward matrix and then the stored inverse returns every point
    exactly (under exact real arithmetic, the trigonometric identity
    standing in for floating point tolerance). -/
theorem C8_transform_roundtrip :
    ∀ (e : TExpr), e.valid → ∀ (p : Vec3),
      e.eval.inv_point (e.eval.point p) = p :=
  fun e hv => (eval_affine_roundtrip e hv).2

/-- Witness for claim C8: a compose of a translate and a scale with
    nonzero factors returns the point (5,6,7) exactly. -/
theorem C8_transform_roundtrip_witness :
    (TExpr.comp (TExpr.tr 1 2 3) (TExpr.sc 2 (-1) 3)).valid ∧
    (TExpr.comp (TExpr.tr 1 2 3) (TExpr.sc 2 (-1) 3)).eval.inv_point
      ((TExpr.comp (TExpr.tr 1 2 3) (TExpr.sc 2 (-1) 3)).eval.point ⟨5, 6, 7⟩) =
      ⟨5, 6, 7⟩ := by
  have hv : (TExpr.comp (TExpr.tr 1 2 3) (TExpr.sc 2 (-1) 3)).valid := by
    refine ⟨trivial, by norm_num, by norm_num, by norm_num⟩
  exact ⟨hv, C8_transform_roundtrip _ hv ⟨5, 6, 7⟩⟩

end RT
